import Mathlib

/-!
Verification of `pkg/kube/watcher.go` from wandera/kubernetes-event-exporter.

The file shallowly embeds the event-watching pipeline: the dedup gate that
reads the `event-exporter.wandera.com/last-count` annotation and parses it
with `strconv.Atoi`, the enrichment of a deep-copied event with labels and
annotations fetched from two metadata caches, the handler invocation, and
the best-effort watermark patch (`annotateEvent`).  External effects (cache
fetches, the remote patch, the handler call) are made explicit: fetch and
patch outcomes are inputs, and `onEvent` returns the list of externally
visible actions it performs, in order.
-/

/-- The fixed annotation key `event-exporter.wandera.com/last-count`
(constant `annotationKey` in watcher.go). -/
def annotationKey : String := "event-exporter.wandera.com/last-count"

/-- Value of an ASCII decimal digit character, `none` for a non-digit. -/
def digitVal (c : Char) : Option Nat :=
  if 48 ≤ c.toNat ∧ c.toNat ≤ 57 then some (c.toNat - 48) else none

/-- Left-to-right accumulation of a decimal digit string; fails on the
first non-digit character. -/
def parseDigitsAux : List Char → Nat → Option Nat
  | [], acc => some acc
  | c :: cs, acc =>
    match digitVal c with
    | none => none
    | some d => parseDigitsAux cs (acc * 10 + d)

/-- Parse a non-empty all-digit character list as a natural number. -/
def parseDigits (l : List Char) : Option Nat :=
  if l.isEmpty then none else parseDigitsAux l 0

/-- Largest value of Go int64 (`strconv.Atoi` on a 64-bit platform
parses into `int` = int64). -/
def int64Max : Nat := 9223372036854775807

/-- Embedding of Go `strconv.Atoi`: an optional `+` or `-` sign followed by
one or more ASCII decimal digits, rejecting values outside the int64 range
(out-of-range input makes Atoi return a non-nil error, which watcher.go
treats like any parse failure). -/
def atoi (s : String) : Option Int :=
  match s.data with
  | [] => none
  | c :: cs =>
    if c = '-' then
      match parseDigits cs with
      | none => none
      | some n => if n ≤ int64Max + 1 then some (-(n : Int)) else none
    else if c = '+' then
      match parseDigits cs with
      | none => none
      | some n => if n ≤ int64Max then some ((n : Int)) else none
    else
      match parseDigits (c :: cs) with
      | none => none
      | some n => if n ≤ int64Max then some ((n : Int)) else none

/-- `corev1.ObjectReference`: the fields the pipeline reads.  All fields
are strings, so the Go value contains no reference types (no maps, slices
or pointers) and copying it shares no mutable state. -/
structure ObjectReference where
  kind : String
  namespc : String
  name : String
  uid : String
deriving DecidableEq, Repr

/-- `corev1.Event` as used by watcher.go: the message/namespace/reason
fields that are logged, the `Count` field (Go int32, embedded as `Int`),
the annotation map of the event record, and the involved-object
reference. -/
structure K8sEvent where
  message : String
  namespc : String
  reason : String
  count : Int
  annotations : List (String × String)
  involvedObject : ObjectReference
deriving DecidableEq, Repr

/-- The watermark annotation of an event record, looked up under
`annotationKey` (the `event.Annotations[annotationKey]` map access). -/
def watermarkAnnot (e : K8sEvent) : Option String :=
  e.annotations.lookup annotationKey

/-- The dedup gate of `onEvent` (watcher.go lines 65-70): skip the event
iff the watermark annotation is present, `strconv.Atoi` parses it, and the
parsed value is `>= int(event.Count)`. -/
def shouldSkip (e : K8sEvent) : Bool :=
  match watermarkAnnot e with
  | none => false
  | some a =>
    match atoi a with
    | none => false
    | some v => v ≥ e.count

/-- The enriched involved-object of `EnhancedEvent`: labels, annotations
and object reference start out as Go nil (here `none`) and are filled in
only on a successful fetch. -/
structure EnhancedInvolvedObject where
  labels : Option (List (String × String))
  annotations : Option (List (String × String))
  objectReference : Option ObjectReference
deriving DecidableEq, Repr

/-- `kube.EnhancedEvent`: a deep copy of the raw event plus the enriched
involved-object metadata. -/
structure EnhancedEvent where
  event : K8sEvent
  involvedObject : EnhancedInvolvedObject
deriving DecidableEq, Repr

/-- Outcome of a metadata-cache fetch: the Go
`(map[string]string, error)` return value. -/
abbrev FetchResult := Except String (List (String × String))

/-- Construction of the `EnhancedEvent` inside `onEvent` (watcher.go lines
72-91): deep-copy the raw event; on a successful label fetch attach the
labels and a deep copy of the involved-object reference; on a successful
annotation fetch attach the annotations and (again) a deep copy of the
involved-object reference.  A failed fetch leaves the corresponding field
nil. -/
def enrich (labelsRes annotationsRes : FetchResult) (e : K8sEvent) : EnhancedEvent :=
  let ev0 : EnhancedEvent :=
    { event := e
      involvedObject := { labels := none, annotations := none, objectReference := none } }
  let ev1 :=
    match labelsRes with
    | .error _ => ev0
    | .ok labels =>
      { ev0 with involvedObject :=
          { ev0.involvedObject with
              labels := some labels
              objectReference := some e.involvedObject } }
  match annotationsRes with
  | .error _ => ev1
  | .ok annots =>
    { ev1 with involvedObject :=
        { ev1.involvedObject with
            annotations := some annots
            objectReference := some e.involvedObject } }

/-- The decimal digits of a natural number, most significant first,
prepended to `acc`; `fuel` bounds the recursion depth and is exhausted
only when `10 ^ fuel ≤ n`. -/
def natReprGo : Nat → Nat → List Char → List Char
  | 0, _, acc => acc
  | fuel + 1, n, acc =>
    if n < 10 then Char.ofNat (48 + n) :: acc
    else natReprGo fuel (n / 10) (Char.ofNat (48 + n % 10) :: acc)

/-- The decimal digits of a natural number, most significant first. -/
def natRepr (n : Nat) : List Char := natReprGo (n + 1) n []

/-- Go `fmt.Sprintf` with verb `%d` on an integer: minimal decimal digits,
with a leading `-` for negative values. -/
def intRepr (i : Int) : String :=
  if i < 0 then ⟨List.cons (Char.ofNat 45) (natRepr i.natAbs)⟩
  else ⟨natRepr i.toNat⟩

/-- `annotateEvent` (watcher.go lines 102-113): the patch it sends writes
the single annotation `annotationKey` ↦ `"%d"` of `event.Count` on the
event record, addressed by the event namespace.  This is the
namespace/key/value triple of that patch. -/
def annotateEventPatch (e : K8sEvent) : String × String × String :=
  (e.namespc, annotationKey, intRepr e.count)

/-- An externally visible action taken by `onEvent`, in program order:
the two cache fetches, the handler invocation with the enriched event, and
the watermark patch attempt. -/
inductive PipelineAction where
  | fetchLabels (ref : ObjectReference)
  | fetchAnnotations (ref : ObjectReference)
  | invokeHandler (ev : EnhancedEvent)
  | patchWatermark (namespc : String) (key : String) (value : String)
deriving DecidableEq, Repr

/-- `onEvent` (watcher.go lines 57-100) as the ordered list of externally
visible actions it performs, given the outcomes the environment returns
for the two cache fetches and the watermark patch.  If the dedup gate
skips the event, `onEvent` returns before doing anything.  Otherwise it
fetches labels, fetches annotations, invokes the handler with the enriched
event, and attempts the watermark patch; the patch outcome `patchRes` is
only logged by the Go code, so it influences nothing. -/
def onEvent (labelsRes annotationsRes : FetchResult)
    (patchRes : Except String Unit) (e : K8sEvent) : List PipelineAction :=
  if shouldSkip e then []
  else
    let _ := patchRes
    [PipelineAction.fetchLabels e.involvedObject,
     PipelineAction.fetchAnnotations e.involvedObject,
     PipelineAction.invokeHandler (enrich labelsRes annotationsRes e),
     PipelineAction.patchWatermark (annotateEventPatch e).1 (annotateEventPatch e).2.1
       (annotateEventPatch e).2.2]

/-- `OnAdd` (watcher.go lines 47-50): cast the object to an event and run
`onEvent` on it. -/
def OnAdd (labelsRes annotationsRes : FetchResult)
    (patchRes : Except String Unit) (obj : K8sEvent) : List PipelineAction :=
  onEvent labelsRes annotationsRes patchRes obj

/-- `OnUpdate` (watcher.go lines 52-55): cast the new object to an event
and run `onEvent` on it; the old object is ignored. -/
def OnUpdate (labelsRes annotationsRes : FetchResult)
    (patchRes : Except String Unit) (oldObj newObj : K8sEvent) : List PipelineAction :=
  onEvent labelsRes annotationsRes patchRes newObj

/-- `OnDelete` (watcher.go lines 115-117): deliberately does nothing. -/
def OnDelete (obj : K8sEvent) : List PipelineAction :=
  []

/-- Number of handler invocations in a trace. -/
def handlerCount (tr : List PipelineAction) : Nat :=
  tr.countP fun a =>
    match a with
    | .invokeHandler _ => true
    | _ => false

/-- Number of watermark patch attempts in a trace. -/
def patchCount (tr : List PipelineAction) : Nat :=
  tr.countP fun a =>
    match a with
    | .patchWatermark _ _ _ => true
    | _ => false

/-- Number of cache fetches (labels or annotations) in a trace. -/
def fetchCount (tr : List PipelineAction) : Nat :=
  tr.countP fun a =>
    match a with
    | .fetchLabels _ => true
    | .fetchAnnotations _ => true
    | _ => false

/-! Round-trip of decimal rendering (`intRepr`, used by `annotateEvent`)
through `atoi`: a watermark written back by the pipeline parses again to
the same integer. -/

lemma natReprGo_eq_append (fuel : Nat) :
    ∀ (n : Nat) (acc : List Char), natReprGo fuel n acc = natReprGo fuel n [] ++ acc := by
  induction fuel with
  | zero => intro n acc; simp [natReprGo]
  | succ fuel ih =>
    intro n acc
    by_cases h : n < 10
    · simp [natReprGo, h]
    · simp only [natReprGo, h, if_false]
      rw [ih (n / 10) (Char.ofNat (48 + n % 10) :: acc),
        ih (n / 10) [Char.ofNat (48 + n % 10)]]
      simp

lemma natReprGo_ne_nil (fuel n : Nat) (acc : List Char) :
    natReprGo (fuel + 1) n acc ≠ [] := by
  induction fuel generalizing n acc with
  | zero =>
    by_cases h : n < 10 <;> simp [natReprGo, h]
  | succ fuel ih =>
    by_cases h : n < 10
    · simp [natReprGo, h]
    · simp only [natReprGo, h, if_false]
      exact ih (n / 10) _

lemma parseDigitsAux_append (l1 l2 : List Char) (a : Nat) :
    parseDigitsAux (l1 ++ l2) a =
      (parseDigitsAux l1 a).bind fun m => parseDigitsAux l2 m := by
  induction l1 generalizing a with
  | nil => simp [parseDigitsAux]
  | cons c cs ih =>
    simp only [List.cons_append, parseDigitsAux]
    cases digitVal c with
    | none => simp
    | some d => simp [ih]

lemma toNat_digitChar (d : Nat) (h : d < 10) : (Char.ofNat (48 + d)).toNat = 48 + d := by
  interval_cases d <;> decide

lemma digitVal_digitChar (d : Nat) (h : d < 10) : digitVal (Char.ofNat (48 + d)) = some d := by
  interval_cases d <;> decide

lemma natReprGo_digits (fuel : Nat) :
    ∀ n, ∀ c ∈ natReprGo fuel n [], 48 ≤ c.toNat ∧ c.toNat ≤ 57 := by
  induction fuel with
  | zero => intro n c hc; simp [natReprGo] at hc
  | succ fuel ih =>
    intro n c hc
    by_cases h : n < 10
    · simp only [natReprGo, h, if_true, List.mem_singleton] at hc
      subst hc
      rw [toNat_digitChar n h]
      omega
    · simp only [natReprGo, h, if_false] at hc
      rw [natReprGo_eq_append] at hc
      rcases List.mem_append.mp hc with hmem | hmem
      · exact ih (n / 10) c hmem
      · simp only [List.mem_singleton] at hmem
        subst hmem
        rw [toNat_digitChar _ (Nat.mod_lt _ (by decide))]
        have := Nat.mod_lt n (show 0 < 10 by decide)
        omega

lemma parseDigitsAux_natReprGo (fuel : Nat) :
    ∀ n a, n < 10 ^ fuel →
      parseDigitsAux (natReprGo fuel n []) a =
        some (a * 10 ^ (natReprGo fuel n []).length + n) := by
  induction fuel with
  | zero =>
    intro n a hn
    interval_cases n
    simp [natReprGo, parseDigitsAux]
  | succ fuel ih =>
    intro n a hn
    by_cases h : n < 10
    · simp [natReprGo, h, parseDigitsAux, digitVal_digitChar n h]
    · have hdiv : n / 10 < 10 ^ fuel := by
        rw [Nat.div_lt_iff_lt_mul (by decide : (0 : Nat) < 10)]
        calc n < 10 ^ (fuel + 1) := hn
          _ = 10 ^ fuel * 10 := by rw [pow_succ]
      have hrec : natReprGo (fuel + 1) n [] =
          natReprGo fuel (n / 10) [] ++ [Char.ofNat (48 + n % 10)] := by
        simp only [natReprGo, h, if_false]
        rw [natReprGo_eq_append]
      rw [hrec, parseDigitsAux_append, ih (n / 10) a hdiv]
      have harith : (a * 10 ^ (natReprGo fuel (n / 10) []).length + n / 10) * 10 + n % 10
          = a * 10 ^ ((natReprGo fuel (n / 10) []).length + 1) + n :=
        calc (a * 10 ^ (natReprGo fuel (n / 10) []).length + n / 10) * 10 + n % 10
            = a * (10 ^ (natReprGo fuel (n / 10) []).length * 10)
                + (n / 10 * 10 + n % 10) := by
              ring
          _ = a * 10 ^ ((natReprGo fuel (n / 10) []).length + 1) + n := by
              rw [Nat.div_add_mod', pow_succ]
      simp [parseDigitsAux, digitVal_digitChar _ (Nat.mod_lt n (by decide)), harith]

lemma parseDigits_natRepr (n : Nat) : parseDigits (natRepr n) = some n := by
  have hfuel : n < 10 ^ (n + 1) := by
    calc n < 2 ^ n := Nat.lt_two_pow n
      _ ≤ 10 ^ n := Nat.pow_le_pow_left (by decide) n
      _ ≤ 10 ^ (n + 1) := Nat.pow_le_pow_right (by decide) (Nat.le_succ n)
  have h := parseDigitsAux_natReprGo (n + 1) n 0 hfuel
  rw [natRepr, parseDigits]
  have hne : (natReprGo (n + 1) n []).isEmpty = false := by
    cases hq : natReprGo (n + 1) n [] with
    | nil => exact absurd hq (natReprGo_ne_nil n n [])
    | cons c cs => rfl
  rw [hne]
  simpa using h

lemma natRepr_digits (n : Nat) : ∀ c ∈ natRepr n, 48 ≤ c.toNat ∧ c.toNat ≤ 57 :=
  natReprGo_digits (n + 1) n

lemma natRepr_ne_nil (n : Nat) : natRepr n ≠ [] := natReprGo_ne_nil n n []

/-- A watermark value written by `annotateEvent` parses back through
`strconv.Atoi` to the same integer, for every integer in the int64 range
(in particular for every Go int32 event count). -/
lemma atoi_intRepr (i : Int) (hlo : -((int64Max : Int) + 1) ≤ i) (hhi : i ≤ (int64Max : Int)) :
    atoi (intRepr i) = some i := by
  by_cases hneg : i < 0
  · rw [intRepr]
    simp only [hneg, if_true]
    rw [atoi]
    simp only
    have hdash : Char.ofNat 45 = '-' := by decide
    rw [hdash]
    simp only [if_pos rfl, parseDigits_natRepr i.natAbs]
    have hrange : i.natAbs ≤ int64Max + 1 := by
      rw [int64Max] at hlo ⊢
      omega
    simp only [hrange, if_true]
    congr 1
    omega
  · rw [intRepr]
    simp only [hneg, if_false]
    rw [atoi]
    simp only
    cases hq : natRepr i.toNat with
    | nil => exact absurd hq (natRepr_ne_nil _)
    | cons c cs =>
      have hdig := natRepr_digits i.toNat c (by rw [hq]; exact List.mem_cons_self c cs)
      have hc1 : ¬(c = '-') := by
        intro hcontra
        subst hcontra
        revert hdig
        decide
      have hc2 : ¬(c = '+') := by
        intro hcontra
        subst hcontra
        revert hdig
        decide
      simp only [hc1, hc2, if_false]
      rw [← hq, parseDigits_natRepr i.toNat]
      have hrange : i.toNat ≤ int64Max := by
        rw [int64Max] at hhi ⊢
        omega
      simp only [hrange, if_true]
      congr 1
      omega

/-! The dedup gate as a state machine over the persisted watermark, and
concrete sample inputs used to instantiate the theorems. -/

/-- Replace the annotation map of an event so that its watermark
annotation is exactly `w` (present with the given string value, or
absent). -/
def setWatermark (e : K8sEvent) (w : Option String) : K8sEvent :=
  { e with annotations :=
      match w with
      | none => []
      | some s => [(annotationKey, s)] }

/-- One step of the dedup state machine induced by `onEvent`, assuming the
watermark write-back of a forwarded event succeeds: from watermark state
`w`, an incoming event `e` is either discarded (state unchanged) or
forwarded, in which case the watermark becomes the value patched by
`annotateEvent`. -/
def stepWatermark (w : Option String) (e : K8sEvent) : Option String × Bool :=
  if shouldSkip (setWatermark e w) then (w, false)
  else (some (annotateEventPatch (setWatermark e w)).2.2, true)

/-- A concrete involved-object reference for instantiating theorems. -/
def sampleRef : ObjectReference :=
  { kind := "Pod", namespc := "default", name := "x", uid := "uid-1" }

/-- A concrete event with the given count and optional watermark
annotation, for instantiating theorems. -/
def mkEvent (c : Int) (w : Option String) : K8sEvent :=
  { message := "m"
    namespc := "default"
    reason := "Started"
    count := c
    annotations :=
      match w with
      | none => []
      | some s => [(annotationKey, s)]
    involvedObject := sampleRef }

lemma shouldSkip_of_parsed_ge (e : K8sEvent) (a : String) (v : Int)
    (ha : watermarkAnnot e = some a) (hv : atoi a = some v) (hge : v ≥ e.count) :
    shouldSkip e = true := by
  simp only [shouldSkip, ha, hv]
  exact decide_eq_true hge

lemma shouldSkip_eq_false_of_absent (e : K8sEvent)
    (ha : watermarkAnnot e = none) : shouldSkip e = false := by
  simp [shouldSkip, ha]

lemma shouldSkip_eq_false_of_unparsed (e : K8sEvent) (a : String)
    (ha : watermarkAnnot e = some a) (hv : atoi a = none) :
    shouldSkip e = false := by
  simp [shouldSkip, ha, hv]

lemma shouldSkip_eq_false_of_parsed_lt (e : K8sEvent) (a : String) (v : Int)
    (ha : watermarkAnnot e = some a) (hv : atoi a = some v) (hlt : v < e.count) :
    shouldSkip e = false := by
  simp only [shouldSkip, ha, hv]
  exact decide_eq_false (not_le.mpr hlt)

lemma onEvent_of_skip (labelsRes annotationsRes : FetchResult)
    (patchRes : Except String Unit) (e : K8sEvent) (h : shouldSkip e = true) :
    onEvent labelsRes annotationsRes patchRes e = [] := by
  simp [onEvent, h]

lemma onEvent_of_forward (labelsRes annotationsRes : FetchResult)
    (patchRes : Except String Unit) (e : K8sEvent) (h : shouldSkip e = false) :
    onEvent labelsRes annotationsRes patchRes e =
      [PipelineAction.fetchLabels e.involvedObject,
       PipelineAction.fetchAnnotations e.involvedObject,
       PipelineAction.invokeHandler (enrich labelsRes annotationsRes e),
       PipelineAction.patchWatermark e.namespc annotationKey (intRepr e.count)] := by
  simp [onEvent, h, annotateEventPatch]

/-- C1: Dedup soundness.  For every incoming event whose watermark
annotation (key `event-exporter.wandera.com/last-count`) is present and
parses (via `strconv.Atoi`) as an integer `v` with `v ≥ event.count`,
`onEvent` discards the event: its trace is empty, so the handler is never
invoked, no metadata fetch is made, and no watermark patch is attempted.
The hypothesis allows `v = event.count`, so an event whose count exactly
equals the stored watermark is discarded. -/
theorem dedup_soundness (labelsRes annotationsRes : FetchResult)
    (patchRes : Except String Unit) (e : K8sEvent) (a : String) (v : Int)
    (ha : watermarkAnnot e = some a) (hv : atoi a = some v)
    (hge : v ≥ e.count) :
    onEvent labelsRes annotationsRes patchRes e = [] ∧
    handlerCount (onEvent labelsRes annotationsRes patchRes e) = 0 ∧
    fetchCount (onEvent labelsRes annotationsRes patchRes e) = 0 ∧
    patchCount (onEvent labelsRes annotationsRes patchRes e) = 0 := by
  have h := onEvent_of_skip labelsRes annotationsRes patchRes e
    (shouldSkip_of_parsed_ge e a v ha hv hge)
  refine ⟨h, ?_, ?_, ?_⟩ <;> rw [h] <;> rfl

/-- Witness for C1 at a concrete input: an event with count 2 whose stored
watermark is exactly "2" is discarded even though both fetches and the
patch would have been available. -/
theorem dedup_soundness_witness :
    onEvent (Except.ok [("app", "x")]) (Except.error "boom") (Except.ok ())
      (mkEvent 2 (some "2")) = [] ∧
    handlerCount (onEvent (Except.ok [("app", "x")]) (Except.error "boom") (Except.ok ())
      (mkEvent 2 (some "2"))) = 0 ∧
    fetchCount (onEvent (Except.ok [("app", "x")]) (Except.error "boom") (Except.ok ())
      (mkEvent 2 (some "2"))) = 0 ∧
    patchCount (onEvent (Except.ok [("app", "x")]) (Except.error "boom") (Except.ok ())
      (mkEvent 2 (some "2"))) = 0 :=
  dedup_soundness (Except.ok [("app", "x")]) (Except.error "boom") (Except.ok ())
    (mkEvent 2 (some "2")) "2" 2 (by decide) (by decide) (by decide)

/-- C2: Dedup completeness.  For every incoming event with no watermark
annotation, or with a watermark annotation parsing to an integer strictly
less than `event.count`, a single call to `onEvent` invokes the handler
exactly once, for every combination of label-fetch, annotation-fetch and
patch outcomes. -/
theorem dedup_completeness (labelsRes annotationsRes : FetchResult)
    (patchRes : Except String Unit) (e : K8sEvent)
    (h : watermarkAnnot e = none ∨
      ∃ a v, watermarkAnnot e = some a ∧ atoi a = some v ∧ v < e.count) :
    handlerCount (onEvent labelsRes annotationsRes patchRes e) = 1 := by
  have hskip : shouldSkip e = false := by
    rcases h with ha | ⟨a, v, ha, hv, hlt⟩
    · exact shouldSkip_eq_false_of_absent e ha
    · exact shouldSkip_eq_false_of_parsed_lt e a v ha hv hlt
  rw [onEvent_of_forward labelsRes annotationsRes patchRes e hskip]
  rfl

/-- Witness for C2 at a concrete input: an event with no watermark
annotation is forwarded exactly once even when both fetches and the patch
fail. -/
theorem dedup_completeness_witness :
    handlerCount (onEvent (Except.error "e1") (Except.error "e2") (Except.error "p")
      (mkEvent 1 none)) = 1 :=
  dedup_completeness (Except.error "e1") (Except.error "e2") (Except.error "p")
    (mkEvent 1 none) (Or.inl (by decide))

/-- C4: Watermark write-back ordering and failure policy.  For every
forwarded event the trace has the handler invocation at index 2 and the
watermark patch (to the decimal form of `event.count`) at index 3, so the
handler runs strictly before the patch attempt; the handler is invoked
exactly once and the patch attempted exactly once (no retry); and the
trace is identical for any two patch outcomes, so a patch failure neither
undoes nor repeats the handler invocation. -/
theorem watermark_writeback_policy (labelsRes annotationsRes : FetchResult)
    (patchRes patchRes2 : Except String Unit) (e : K8sEvent)
    (h : shouldSkip e = false) :
    handlerCount (onEvent labelsRes annotationsRes patchRes e) = 1 ∧
    patchCount (onEvent labelsRes annotationsRes patchRes e) = 1 ∧
    (onEvent labelsRes annotationsRes patchRes e)[2]? =
      some (PipelineAction.invokeHandler (enrich labelsRes annotationsRes e)) ∧
    (onEvent labelsRes annotationsRes patchRes e)[3]? =
      some (PipelineAction.patchWatermark e.namespc annotationKey (intRepr e.count)) ∧
    onEvent labelsRes annotationsRes patchRes e =
      onEvent labelsRes annotationsRes patchRes2 e := by
  rw [onEvent_of_forward labelsRes annotationsRes patchRes e h,
    onEvent_of_forward labelsRes annotationsRes patchRes2 e h]
  exact ⟨rfl, rfl, rfl, rfl, rfl⟩

/-- Witness for C4 at a concrete input: a forwarded event with a failing
patch still has exactly one handler invocation (at index 2) followed by
exactly one patch attempt (at index 3), and the trace equals the one with
a successful patch. -/
theorem watermark_writeback_policy_witness :
    handlerCount (onEvent (Except.ok [("app", "x")]) (Except.ok []) (Except.error "p")
      (mkEvent 5 (some "1"))) = 1 ∧
    patchCount (onEvent (Except.ok [("app", "x")]) (Except.ok []) (Except.error "p")
      (mkEvent 5 (some "1"))) = 1 ∧
    (onEvent (Except.ok [("app", "x")]) (Except.ok []) (Except.error "p")
      (mkEvent 5 (some "1")))[2]? =
      some (PipelineAction.invokeHandler
        (enrich (Except.ok [("app", "x")]) (Except.ok []) (mkEvent 5 (some "1")))) ∧
    (onEvent (Except.ok [("app", "x")]) (Except.ok []) (Except.error "p")
      (mkEvent 5 (some "1")))[3]? =
      some (PipelineAction.patchWatermark (mkEvent 5 (some "1")).namespc annotationKey
        (intRepr (mkEvent 5 (some "1")).count)) ∧
    onEvent (Except.ok [("app", "x")]) (Except.ok []) (Except.error "p")
      (mkEvent 5 (some "1")) =
      onEvent (Except.ok [("app", "x")]) (Except.ok []) (Except.ok ())
        (mkEvent 5 (some "1")) :=
  watermark_writeback_policy (Except.ok [("app", "x")]) (Except.ok [])
    (Except.error "p") (Except.ok ()) (mkEvent 5 (some "1")) (by decide)

/-- C5 counterexample: the claim quantifies over every incoming event, but
`strconv.Atoi` accepts negative integers, and the gate compares the parsed
value against `event.Count` (a Go int32, which can be negative).  For the
concrete event with count `-1` and watermark annotation `"-1"` — an
annotation present but not parseable as a *non-negative* integer, since it
parses to `-1 < 0` — `onEvent` discards the event instead of treating the
watermark as absent: the trace is empty and the handler is not invoked. -/
theorem malformed_watermark_counterexample :
    watermarkAnnot (mkEvent (-1) (some "-1")) = some "-1" ∧
    atoi "-1" = some (-1) ∧
    ((-1 : Int) < 0) ∧
    onEvent (Except.ok []) (Except.ok []) (Except.ok ()) (mkEvent (-1) (some "-1")) = [] ∧
    handlerCount (onEvent (Except.ok []) (Except.ok []) (Except.ok ())
      (mkEvent (-1) (some "-1"))) = 0 := by
  refine ⟨by decide, by decide, by decide, ?_, ?_⟩ <;> decide

/-- C5 amended: for every incoming event whose watermark annotation is
present but does not parse under `strconv.Atoi` (the malformed case), the
event is treated as if the watermark were absent and the handler is
invoked exactly once; and a watermark that parses to a *negative* integer
likewise never discards an event whose count is non-negative.  (Only an
event with a negative count, impossible for a genuine occurrence counter,
can be discarded by a negative parsed watermark.) -/
theorem malformed_watermark_amended (labelsRes annotationsRes : FetchResult)
    (patchRes : Except String Unit) (e : K8sEvent) (a : String) (v : Int)
    (ha : watermarkAnnot e = some a)
    (hmal : atoi a = none ∨ (atoi a = some v ∧ v < 0 ∧ 0 ≤ e.count)) :
    handlerCount (onEvent labelsRes annotationsRes patchRes e) = 1 := by
  have hskip : shouldSkip e = false := by
    rcases hmal with hnone | ⟨hv, hvneg, hc⟩
    · exact shouldSkip_eq_false_of_unparsed e a ha hnone
    · exact shouldSkip_eq_false_of_parsed_lt e a v ha hv (lt_of_lt_of_le hvneg hc)
  rw [onEvent_of_forward labelsRes annotationsRes patchRes e hskip]
  rfl

/-- Witness for the amended C5 at a concrete input: an event carrying the
unparseable watermark annotation `"oops"` is forwarded exactly once. -/
theorem malformed_watermark_amended_witness :
    handlerCount (onEvent (Except.ok []) (Except.ok []) (Except.ok ())
      (mkEvent 0 (some "oops"))) = 1 :=
  malformed_watermark_amended (Except.ok []) (Except.ok []) (Except.ok ())
    (mkEvent 0 (some "oops")) "oops" 0 (by decide) (Or.inl (by decide))

/-- C6: Enrichment independence and best-effort delivery.  For a forwarded
event: a failing label fetch does not suppress the handler (still invoked
exactly once), does not prevent the annotation fetch (still present in the
trace) and does not prevent a successful annotation result from being
attached; symmetrically a failing annotation fetch does not remove
attached labels; and a failed fetch leaves its own field unattached. -/
theorem enrichment_independence (annotationsRes labelsRes : FetchResult)
    (patchRes : Except String Unit) (err err2 : String)
    (m m2 : List (String × String)) (e : K8sEvent) (h : shouldSkip e = false) :
    handlerCount (onEvent (Except.error err) annotationsRes patchRes e) = 1 ∧
    (onEvent (Except.error err) annotationsRes patchRes e)[1]? =
      some (PipelineAction.fetchAnnotations e.involvedObject) ∧
    (onEvent (Except.error err) annotationsRes patchRes e)[2]? =
      some (PipelineAction.invokeHandler (enrich (Except.error err) annotationsRes e)) ∧
    (enrich (Except.error err) (Except.ok m) e).involvedObject.annotations = some m ∧
    (enrich (Except.ok m) (Except.error err2) e).involvedObject.labels = some m ∧
    (enrich (Except.error err) annotationsRes e).involvedObject.labels = none ∧
    (enrich labelsRes (Except.error err2) e).involvedObject.annotations = none := by
  rw [onEvent_of_forward (Except.error err) annotationsRes patchRes e h]
  refine ⟨rfl, rfl, rfl, rfl, rfl, ?_, ?_⟩
  · cases annotationsRes <;> rfl
  · cases labelsRes <;> rfl

/-- Witness for C6 at a concrete input: with the label fetch failing and
the annotation fetch succeeding, the event is forwarded once, the
annotation fetch still happens, annotations are attached, and the labels
field is left unattached. -/
theorem enrichment_independence_witness :
    handlerCount (onEvent (Except.error "down") (Except.ok [("a", "1")]) (Except.ok ())
      (mkEvent 1 none)) = 1 ∧
    (onEvent (Except.error "down") (Except.ok [("a", "1")]) (Except.ok ())
      (mkEvent 1 none))[1]? =
      some (PipelineAction.fetchAnnotations (mkEvent 1 none).involvedObject) ∧
    (onEvent (Except.error "down") (Except.ok [("a", "1")]) (Except.ok ())
      (mkEvent 1 none))[2]? =
      some (PipelineAction.invokeHandler
        (enrich (Except.error "down") (Except.ok [("a", "1")]) (mkEvent 1 none))) ∧
    (enrich (Except.error "down") (Except.ok [("a", "1")])
      (mkEvent 1 none)).involvedObject.annotations = some [("a", "1")] ∧
    (enrich (Except.ok [("a", "1")]) (Except.error "down2")
      (mkEvent 1 none)).involvedObject.labels = some [("a", "1")] ∧
    (enrich (Except.error "down") (Except.ok [("a", "1")])
      (mkEvent 1 none)).involvedObject.labels = none ∧
    (enrich (Except.ok [("b", "2")]) (Except.error "down2")
      (mkEvent 1 none)).involvedObject.annotations = none :=
  enrichment_independence (Except.ok [("a", "1")]) (Except.ok [("b", "2")])
    (Except.ok ()) "down" "down2" [("a", "1")] [] (mkEvent 1 none) (by decide)

/-- C8: Involved-object reference attachment.  For every forwarded event
the handler receives the enriched event, and its attached involved-object
reference is a copy of the raw event's reference exactly when at least one
of the two fetches succeeded; when both fail it is left unattached. -/
theorem object_reference_attachment (labelsRes annotationsRes : FetchResult)
    (patchRes : Except String Unit) (e : K8sEvent) (h : shouldSkip e = false) :
    (onEvent labelsRes annotationsRes patchRes e)[2]? =
      some (PipelineAction.invokeHandler (enrich labelsRes annotationsRes e)) ∧
    (enrich labelsRes annotationsRes e).involvedObject.objectReference =
      (if labelsRes.isOk || annotationsRes.isOk then some e.involvedObject else none) := by
  rw [onEvent_of_forward labelsRes annotationsRes patchRes e h]
  refine ⟨rfl, ?_⟩
  cases labelsRes <;> cases annotationsRes <;> rfl

/-- Witness for C8 at a concrete input: when both fetches fail, the
forwarded event carries no involved-object reference. -/
theorem object_reference_attachment_witness :
    (onEvent (Except.error "x") (Except.error "y") (Except.ok ())
      (mkEvent 4 (some "3")))[2]? =
      some (PipelineAction.invokeHandler
        (enrich (Except.error "x") (Except.error "y") (mkEvent 4 (some "3")))) ∧
    (enrich (Except.error "x") (Except.error "y")
      (mkEvent 4 (some "3"))).involvedObject.objectReference =
      (if (Except.error "x" : FetchResult).isOk || (Except.error "y" : FetchResult).isOk
        then some (mkEvent 4 (some "3")).involvedObject else none) :=
  object_reference_attachment (Except.error "x") (Except.error "y") (Except.ok ())
    (mkEvent 4 (some "3")) (by decide)

/-- C9: Callback routing equivalence.  `OnUpdate old new` performs exactly
the actions of `OnAdd new` for every pair of objects and every
environment, so the old object has no influence; and `OnDelete` is a
no-op: its trace is empty, so it invokes no handler, performs no fetch and
writes no watermark. -/
theorem callback_routing_equivalence :
    (∀ (labelsRes annotationsRes : FetchResult) (patchRes : Except String Unit)
      (oldObj newObj : K8sEvent),
      OnUpdate labelsRes annotationsRes patchRes oldObj newObj =
        OnAdd labelsRes annotationsRes patchRes newObj) ∧
    (∀ obj : K8sEvent, OnDelete obj = [] ∧ handlerCount (OnDelete obj) = 0 ∧
      fetchCount (OnDelete obj) = 0 ∧ patchCount (OnDelete obj) = 0) :=
  ⟨fun _ _ _ _ _ => rfl, fun _ => ⟨rfl, rfl, rfl, rfl⟩⟩

lemma watermarkAnnot_setWatermark_none (e : K8sEvent) :
    watermarkAnnot (setWatermark e none) = none := rfl

lemma watermarkAnnot_setWatermark_some (e : K8sEvent) (s : String) :
    watermarkAnnot (setWatermark e (some s)) = some s := by
  simp [watermarkAnnot, setWatermark, List.lookup]

lemma count_setWatermark (e : K8sEvent) (w : Option String) :
    (setWatermark e w).count = e.count := rfl

/-- C3: DedupGate state machine.  With the per-identity watermark as the
state and every forwarded event's write-back assumed successful: from
Unseen (no watermark annotation) any count forwards and the watermark
becomes that count's decimal form; from Seen(w) a count `> w` forwards and
the watermark becomes that count, while a count `≤ w` discards and the
watermark stays `w`; and the concrete trace absent/count 1 forward to
`"1"`, count 1 discard, count 3 forward to `"3"`, count 2 discard follows.
The range hypotheses only require the stored watermark to fit in int64 (a
watermark ever written by the pipeline is an int32 count, so it does). -/
theorem dedupGate_state_machine (e : K8sEvent) (w : Int)
    (hlo : -((int64Max : Int) + 1) ≤ w) (hhi : w ≤ (int64Max : Int)) :
    stepWatermark none e = (some (intRepr e.count), true) ∧
    stepWatermark (some (intRepr w)) e =
      (if w ≥ e.count then (some (intRepr w), false)
        else (some (intRepr e.count), true)) ∧
    (stepWatermark none (mkEvent 1 none) = (some "1", true) ∧
      stepWatermark (some "1") (mkEvent 1 none) = (some "1", false) ∧
      stepWatermark (some "1") (mkEvent 3 none) = (some "3", true) ∧
      stepWatermark (some "3") (mkEvent 2 none) = (some "3", false)) := by
  refine ⟨?_, ?_, by decide, by decide, by decide, by decide⟩
  · rw [stepWatermark,
      shouldSkip_eq_false_of_absent _ (watermarkAnnot_setWatermark_none e)]
    rfl
  · have hparse : atoi (intRepr w) = some w := atoi_intRepr w hlo hhi
    by_cases hge : w ≥ e.count
    · have hskip : shouldSkip (setWatermark e (some (intRepr w))) = true :=
        shouldSkip_of_parsed_ge _ (intRepr w) w
          (watermarkAnnot_setWatermark_some e (intRepr w)) hparse
          (by rw [count_setWatermark]; exact hge)
      rw [stepWatermark, hskip]
      simp [hge]
    · have hskip : shouldSkip (setWatermark e (some (intRepr w))) = false :=
        shouldSkip_eq_false_of_parsed_lt _ (intRepr w) w
          (watermarkAnnot_setWatermark_some e (intRepr w)) hparse
          (by rw [count_setWatermark]; exact not_le.mp hge)
      rw [stepWatermark, hskip]
      simp [hge, annotateEventPatch, count_setWatermark]

/-- Witness for C3 at a concrete input: from watermark state 1, an event
with count 3 forwards and the state becomes 3; the concrete four-step
trace holds. -/
theorem dedupGate_state_machine_witness :
    stepWatermark none (mkEvent 3 none) = (some (intRepr (mkEvent 3 none).count), true) ∧
    stepWatermark (some (intRepr 1)) (mkEvent 3 none) =
      (if (1 : Int) ≥ (mkEvent 3 none).count then (some (intRepr 1), false)
        else (some (intRepr (mkEvent 3 none).count), true)) ∧
    (stepWatermark none (mkEvent 1 none) = (some "1", true) ∧
      stepWatermark (some "1") (mkEvent 1 none) = (some "1", false) ∧
      stepWatermark (some "1") (mkEvent 3 none) = (some "3", true) ∧
      stepWatermark (some "3") (mkEvent 2 none) = (some "3", false)) :=
  dedupGate_state_machine (mkEvent 3 none) 1 (by decide) (by decide)

/-! Heap model for the aliasing claims.  Go maps are reference values, so
mutation and aliasing are visible only through a store: `Heap` holds the
map values live in the process, a reference is an index into it, and
allocation appends.  `corev1.Event.DeepCopy()` allocates a fresh
annotation map; the involved-object reference is a struct of strings and
is copied by value. -/

/-- A Go `map[string]string` value. -/
abbrev MapVal := List (String × String)

/-- The store of live map values; a Go map reference is an index into
`store`, and allocating never moves existing cells. -/
structure Heap where
  store : List MapVal
deriving DecidableEq, Repr

/-- Read the map value a reference points to. -/
def Heap.get? (h : Heap) (r : Nat) : Option MapVal := h.store[r]?

/-- Allocate a fresh map value, returning the new heap and the fresh
reference. -/
def Heap.alloc (h : Heap) (m : MapVal) : Heap × Nat :=
  (⟨h.store ++ [m]⟩, h.store.length)

/-- `corev1.Event` with its annotation map held by reference, as in Go;
all other fields are value types. -/
structure EventH where
  message : String
  namespc : String
  reason : String
  count : Int
  annotationsRef : Nat
  involvedObject : ObjectReference
deriving DecidableEq, Repr

/-- The value-level view of a heap event: what every read of its fields
returns. -/
def EventH.toPure (h : Heap) (e : EventH) : K8sEvent :=
  { message := e.message
    namespc := e.namespc
    reason := e.reason
    count := e.count
    annotations := (h.get? e.annotationsRef).getD []
    involvedObject := e.involvedObject }

/-- `event.DeepCopy()` as called by `onEvent` (watcher.go line 73): the
copy shares no map with the original, so its annotation map is a freshly
allocated cell with the same content. -/
def deepCopyEvent (h : Heap) (e : EventH) : Heap × EventH :=
  let (h1, r) := h.alloc ((h.get? e.annotationsRef).getD [])
  (h1, { e with annotationsRef := r })

/-- The enriched involved-object with its two metadata maps held by
reference (Go nil maps are `none`). -/
structure EnhancedInvolvedObjectH where
  labelsRef : Option Nat
  annotationsRef : Option Nat
  objectReference : Option ObjectReference
deriving DecidableEq, Repr

/-- `kube.EnhancedEvent` over the heap. -/
structure EnhancedEventH where
  event : EventH
  involvedObject : EnhancedInvolvedObjectH
deriving DecidableEq, Repr

/-- Modelled from the spec: the metadata-cache fetch
(`GetLabelsWithCache` / `GetAnnotationsWithCache`, whose implementation is
not part of this package's source).  Per the spec the downstream handler
never observes a reference aliased with cache-internal state, so on
success the cache hands `onEvent` a mapping in a cell of its own, fresh
with respect to the caller's heap; on failure it returns the error. -/
def getMetadataWithCache (h : Heap) (outcome : Except String MapVal) :
    Heap × Except String Nat :=
  match outcome with
  | .error s => (h, .error s)
  | .ok m => ((h.alloc m).1, .ok (h.alloc m).2)

/-- `onEvent` over the heap: the dedup gate reads the raw event through
the heap; a forwarded event is deep-copied, enriched with the references
the two cache fetches return, and handed to the handler (returned as
`some`); a discarded event leaves the heap untouched and returns `none`.
The watermark patch is a remote write and touches no heap cell. -/
def onEventHeap (labelsOutcome annotationsOutcome : Except String MapVal)
    (h : Heap) (e : EventH) : Heap × Option EnhancedEventH :=
  if shouldSkip (e.toPure h) then (h, none)
  else
    let hc := deepCopyEvent h e
    let hl := getMetadataWithCache hc.1 labelsOutcome
    let ev1 : EnhancedEventH :=
      { event := hc.2
        involvedObject :=
          { labelsRef := none, annotationsRef := none, objectReference := none } }
    let ev2 :=
      match hl.2 with
      | .error _ => ev1
      | .ok r =>
        { ev1 with involvedObject :=
            { ev1.involvedObject with
                labelsRef := some r
                objectReference := some e.involvedObject } }
    let ha := getMetadataWithCache hl.1 annotationsOutcome
    let ev3 :=
      match ha.2 with
      | .error _ => ev2
      | .ok r =>
        { ev2 with involvedObject :=
            { ev2.involvedObject with
                annotationsRef := some r
                objectReference := some e.involvedObject } }
    (ha.1, some ev3)

/-- Every map reference reachable from an enriched event: its deep-copied
annotation map and the two metadata maps (when attached). -/
def EnhancedEventH.refs (ev : EnhancedEventH) : List Nat :=
  ev.event.annotationsRef ::
    (ev.involvedObject.labelsRef.toList ++ ev.involvedObject.annotationsRef.toList)

/-- All references reachable from the enriched event lie at or above
`bound` (fresh with respect to a heap of size `bound`) and are pairwise
distinct. -/
def freshRefs (bound : Nat) (ev : EnhancedEventH) : Prop :=
  (∀ r ∈ ev.refs, bound ≤ r) ∧ ev.refs.Nodup

/-- C10: Raw event immutability and no aliasing.  For every call of
`onEvent` (over the heap model) that forwards an event: the heap after the
call extends the heap before it, so no existing cell — in particular the
raw event's annotation map — is mutated; every field read of the raw
event returns the same value after the call as before; the enriched event
handed to the handler agrees with the raw event on all value fields and
its annotation map is a fresh cell with the raw map's content; and all map
references reachable from the enriched event are fresh (allocated by the
deep copy or handed out by the cache in cells of their own per the spec)
and pairwise distinct, so none aliases the raw event's map or any
pre-existing state. -/

theorem raw_event_immutability (labelsOutcome annotationsOutcome : Except String MapVal)
    (h : Heap) (e : EventH) (ev : EnhancedEventH)
    (hr : e.annotationsRef < h.store.length)
    (hres : (onEventHeap labelsOutcome annotationsOutcome h e).2 = some ev) :
    List.IsPrefix h.store (onEventHeap labelsOutcome annotationsOutcome h e).1.store ∧
    EventH.toPure (onEventHeap labelsOutcome annotationsOutcome h e).1 e = EventH.toPure h e ∧
    ev.event.message = e.message ∧
    ev.event.namespc = e.namespc ∧
    ev.event.reason = e.reason ∧
    ev.event.count = e.count ∧
    ev.event.involvedObject = e.involvedObject ∧
    (onEventHeap labelsOutcome annotationsOutcome h e).1.get? ev.event.annotationsRef =
      h.get? e.annotationsRef ∧
    freshRefs h.store.length ev ∧
    e.annotationsRef ∉ ev.refs := by
  have hskip : shouldSkip (e.toPure h) = false := by
    by_contra hcontra
    rw [Bool.not_eq_false] at hcontra
    rw [onEventHeap] at hres
    simp [hcontra] at hres
  obtain ⟨x, hx⟩ : ∃ x, h.store[e.annotationsRef]? = some x :=
    ⟨h.store[e.annotationsRef], List.getElem?_eq_getElem hr⟩
  rcases labelsOutcome with lerr | lm <;> rcases annotationsOutcome with aerr | am <;>
    rw [onEventHeap] at hres ⊢ <;>
    simp only [hskip, if_false, Bool.false_eq_true, deepCopyEvent, getMetadataWithCache,
      Heap.alloc, Heap.get?, hx, Option.getD_some, Option.some_inj] at hres ⊢ <;>
    subst hres
  · refine ⟨List.prefix_append _ _, ?_, rfl, rfl, rfl, rfl, rfl, ?_, ?_, ?_⟩
    · simp only [EventH.toPure, Heap.get?, List.getElem?_append_left hr]
    · exact List.getElem?_concat_length h.store x
    · refine ⟨?_, ?_⟩
      · intro r hmem
        simp [EnhancedEventH.refs] at hmem
        omega
      · simp [EnhancedEventH.refs]
    · simp [EnhancedEventH.refs]
      omega
  · have h1 : e.annotationsRef < (h.store ++ [x]).length := by
      simp
      omega
    have h2 : h.store.length < (h.store ++ [x]).length := by simp
    refine ⟨(List.prefix_append _ _).trans (List.prefix_append _ _), ?_, rfl, rfl, rfl, rfl,
      rfl, ?_, ?_, ?_⟩
    · simp only [EventH.toPure, Heap.get?, List.getElem?_append_left h1,
        List.getElem?_append_left hr]
    · rw [List.getElem?_append_left h2]
      exact List.getElem?_concat_length h.store x
    · refine ⟨?_, ?_⟩
      · intro r hmem
        simp [EnhancedEventH.refs] at hmem
        omega
      · simp [EnhancedEventH.refs]
    · simp [EnhancedEventH.refs]
      omega
  · have h1 : e.annotationsRef < (h.store ++ [x]).length := by
      simp
      omega
    have h2 : h.store.length < (h.store ++ [x]).length := by simp
    refine ⟨(List.prefix_append _ _).trans (List.prefix_append _ _), ?_, rfl, rfl, rfl, rfl,
      rfl, ?_, ?_, ?_⟩
    · simp only [EventH.toPure, Heap.get?, List.getElem?_append_left h1,
        List.getElem?_append_left hr]
    · rw [List.getElem?_append_left h2]
      exact List.getElem?_concat_length h.store x
    · refine ⟨?_, ?_⟩
      · intro r hmem
        simp [EnhancedEventH.refs] at hmem
        omega
      · simp [EnhancedEventH.refs]
    · simp [EnhancedEventH.refs]
      omega
  · have h1 : e.annotationsRef < (h.store ++ [x]).length := by
      simp
      omega
    have h1b : e.annotationsRef < ((h.store ++ [x]) ++ [lm]).length := by
      simp
      omega
    have h2 : h.store.length < (h.store ++ [x]).length := by simp
    have h2b : h.store.length < ((h.store ++ [x]) ++ [lm]).length := by simp
    refine ⟨((List.prefix_append _ _).trans (List.prefix_append _ _)).trans
      (List.prefix_append _ _), ?_, rfl, rfl, rfl, rfl, rfl, ?_, ?_, ?_⟩
    · simp only [EventH.toPure, Heap.get?, List.getElem?_append_left h1b,
        List.getElem?_append_left h1, List.getElem?_append_left hr]
    · rw [List.getElem?_append_left h2b, List.getElem?_append_left h2]
      exact List.getElem?_concat_length h.store x
    · refine ⟨?_, ?_⟩
      · intro r hmem
        simp [EnhancedEventH.refs] at hmem
        omega
      · simp [EnhancedEventH.refs]
    · simp [EnhancedEventH.refs]
      omega

/-- A concrete heap with a single map cell at reference 0, for
instantiating the heap theorems. -/
def sampleHeap : Heap := ⟨[[("k", "v")]]⟩

/-- A concrete heap event whose annotation map lives at reference 0. -/
def sampleEventH : EventH :=
  { message := "m"
    namespc := "default"
    reason := "Started"
    count := 1
    annotationsRef := 0
    involvedObject := sampleRef }

/-- The enriched event `onEventHeap` produces for `sampleEventH` when the
label fetch succeeds and the annotation fetch fails: the deep copy lives
at the fresh reference 1 and the fetched labels at the fresh
reference 2. -/
def sampleEnhanced : EnhancedEventH :=
  { event := { sampleEventH with annotationsRef := 1 }
    involvedObject :=
      { labelsRef := some 2, annotationsRef := none, objectReference := some sampleRef } }

/-- Witness for C10 at a concrete input: forwarding `sampleEventH` from
`sampleHeap` with a successful label fetch and a failed annotation fetch
leaves cell 0 intact and yields an enriched event whose references 1 and 2
are fresh and distinct. -/
theorem raw_event_immutability_witness :
    List.IsPrefix sampleHeap.store
      (onEventHeap (Except.ok [("a", "1")]) (Except.error "x")
        sampleHeap sampleEventH).1.store ∧
    EventH.toPure (onEventHeap (Except.ok [("a", "1")]) (Except.error "x")
      sampleHeap sampleEventH).1 sampleEventH = EventH.toPure sampleHeap sampleEventH ∧
    sampleEnhanced.event.message = sampleEventH.message ∧
    sampleEnhanced.event.namespc = sampleEventH.namespc ∧
    sampleEnhanced.event.reason = sampleEventH.reason ∧
    sampleEnhanced.event.count = sampleEventH.count ∧
    sampleEnhanced.event.involvedObject = sampleEventH.involvedObject ∧
    (onEventHeap (Except.ok [("a", "1")]) (Except.error "x")
      sampleHeap sampleEventH).1.get? sampleEnhanced.event.annotationsRef =
      sampleHeap.get? sampleEventH.annotationsRef ∧
    freshRefs sampleHeap.store.length sampleEnhanced ∧
    sampleEventH.annotationsRef ∉ sampleEnhanced.refs :=
  raw_event_immutability (Except.ok [("a", "1")]) (Except.error "x")
    sampleHeap sampleEventH sampleEnhanced (by decide) (by decide)

/-! Concurrency model of the MetadataCache, modelled from the spec (the
`LabelCache` / `AnnotationCache` implementation is not part of this
package's source).  Concurrent executions are interleavings of atomic
steps: a caller arriving at `getWithCache` for an identity, and a fetch
for an identity completing.  Per the spec, callers arriving while a fetch
for the same identity is outstanding wait on that single fetch instead of
issuing their own, all waiters receive the result of the one fetch when it
completes, a failed fetch is not cached (a later caller retries), and
identities are independent. -/

/-- Modelled from the spec: the cache's state for one object identity —
no fetch outstanding and nothing cached, a single outstanding fetch with
the callers waiting on it, or a memoized successful result. -/
inductive KeyState where
  | idle
  | fetching (waiters : List Nat)
  | cached (result : MapVal)
deriving DecidableEq, Repr

/-- Modelled from the spec: the whole cache state, one `KeyState` per
object identity. -/
def CacheState := ObjectReference → KeyState

/-- Update the state of one identity, leaving every other identity
untouched. -/
def setKey (s : CacheState) (k : ObjectReference) (v : KeyState) : CacheState :=
  fun j => if j = k then v else s j

deriving instance DecidableEq for Except

/-- An atomic scheduler step: caller `caller` arrives at `getWithCache`
for identity `k`, or the outstanding fetch for `k` completes with
`result`. -/
inductive CacheLabel where
  | arrive (caller : Nat) (k : ObjectReference)
  | complete (k : ObjectReference) (result : Except String MapVal)
deriving DecidableEq, Repr

/-- An externally visible cache effect: a fetch issued against the
authoritative source, or a result delivered to a caller. -/
inductive CacheObs where
  | issueFetch (k : ObjectReference)
  | deliver (caller : Nat) (k : ObjectReference) (result : Except String MapVal)
deriving DecidableEq, Repr

/-- Modelled from the spec: one step of `getWithCache`.  An arriving
caller finding the identity idle issues the (single) fetch and waits; one
finding a fetch outstanding joins its waiters without issuing anything;
one finding a memoized result is served immediately.  A completing fetch
delivers its result to every waiter, memoizes a success, and resets to
idle on failure (failed fetches are not cached). -/
def cacheStep (s : CacheState) (l : CacheLabel) : CacheState × List CacheObs :=
  match l with
  | .arrive caller k =>
    match s k with
    | .idle => (setKey s k (.fetching [caller]), [.issueFetch k])
    | .fetching ws => (setKey s k (.fetching (caller :: ws)), [])
    | .cached m => (s, [.deliver caller k (.ok m)])
  | .complete k r =>
    match s k with
    | .fetching ws =>
      (setKey s k (match r with | .ok m => .cached m | .error _ => .idle),
       ws.reverse.map fun caller => .deliver caller k r)
    | _ => (s, [])

/-- Run a sequence of atomic steps, collecting the observations in
order. -/
def cacheRun (s : CacheState) : List CacheLabel → CacheState × List CacheObs
  | [] => (s, [])
  | l :: ls =>
    let s1 := cacheStep s l
    let s2 := cacheRun s1.1 ls
    (s2.1, s1.2 ++ s2.2)

/-- Number of fetches issued for identity `k` in a list of
observations. -/
def issueCount (k : ObjectReference) (obs : List CacheObs) : Nat :=
  obs.countP fun o =>
    match o with
    | .issueFetch j => decide (j = k)
    | _ => false

lemma setKey_same (s : CacheState) (k : ObjectReference) (v : KeyState) :
    setKey s k v k = v := by
  simp [setKey]

lemma setKey_other (s : CacheState) (k : ObjectReference) (v : KeyState)
    (j : ObjectReference) (hj : j ≠ k) : setKey s k v j = s j := by
  simp [setKey, hj]

lemma setKey_setKey (s : CacheState) (k : ObjectReference) (a b : KeyState) :
    setKey (setKey s k a) k b = setKey s k b := by
  funext j
  by_cases hj : j = k <;> simp [setKey, hj]

lemma setKey_eq_of_lookup (s : CacheState) (k : ObjectReference) (v : KeyState)
    (h : s k = v) : setKey s k v = s := by
  funext j
  by_cases hj : j = k
  · subst hj
    simp [setKey, h]
  · simp [setKey, hj]

lemma cacheRun_append (s : CacheState) (l1 l2 : List CacheLabel) :
    cacheRun s (l1 ++ l2) =
      ((cacheRun (cacheRun s l1).1 l2).1,
        (cacheRun s l1).2 ++ (cacheRun (cacheRun s l1).1 l2).2) := by
  induction l1 generalizing s with
  | nil => simp [cacheRun]
  | cons l ls ih => simp [cacheRun, ih]

lemma cacheRun_arrivals (k : ObjectReference) (rest : List Nat) :
    ∀ (s : CacheState) (ws : List Nat), s k = KeyState.fetching ws →
      cacheRun s (rest.map fun caller => CacheLabel.arrive caller k) =
        (setKey s k (KeyState.fetching (rest.reverse ++ ws)), []) := by
  induction rest with
  | nil =>
    intro s ws h
    simp [cacheRun, setKey_eq_of_lookup s k _ h]
  | cons c0 rest ih =>
    intro s ws h
    simp only [List.map_cons, cacheRun, cacheStep, h]
    rw [ih (setKey s k (KeyState.fetching (c0 :: ws))) (c0 :: ws) (setKey_same s k _),
      setKey_setKey]
    simp

lemma issueCount_deliver_map (k : ObjectReference) (r : Except String MapVal)
    (l : List Nat) :
    issueCount k (l.map fun caller => CacheObs.deliver caller k r) = 0 := by
  induction l with
  | nil => rfl
  | cons a l ih =>
    simp only [List.map_cons, issueCount, List.countP_cons] at ih ⊢
    simp [ih]

/-- The per-identity state after the outstanding fetch completes: a
success is memoized, a failure is not cached and the identity returns to
idle. -/
def completeState (r : Except String MapVal) : KeyState :=
  match r with
  | .ok m => KeyState.cached m
  | .error _ => KeyState.idle

/-- C7: Single in-flight fetch per identity.  For `N = 1 + cs.length`
callers arriving concurrently (in any arrival order — the arriving-caller
list is arbitrary) at `getWithCache` for the same identity `k`, starting
with no fetch outstanding: exactly one fetch is issued against the
authoritative source (the observation trace contains one `issueFetch` and
nothing else before the completion), and when that single fetch completes
every one of the N callers is delivered the very same result `r` (the
same mapping or the same error); afterwards a success is memoized and a
failure is not.  Moreover lookups for a distinct identity are not
serialized against `k`: a step for identity `kother ≠ k` observes exactly
the same behavior and reaches the same per-key state whether or not any
state is held for `k`. -/
theorem single_inflight_fetch (s : CacheState) (k kother : ObjectReference)
    (c : Nat) (cs : List Nat) (r : Except String MapVal) (c2 : Nat) (v : KeyState)
    (hidle : s k = KeyState.idle) (hne : kother ≠ k) :
    (cacheRun s (((c :: cs).map fun caller => CacheLabel.arrive caller k) ++
        [CacheLabel.complete k r])).2 =
      CacheObs.issueFetch k ::
        ((c :: cs).map fun caller => CacheObs.deliver caller k r) ∧
    issueCount k (cacheRun s (((c :: cs).map fun caller => CacheLabel.arrive caller k) ++
        [CacheLabel.complete k r])).2 = 1 ∧
    (cacheRun s (((c :: cs).map fun caller => CacheLabel.arrive caller k) ++
        [CacheLabel.complete k r])).1 k = completeState r ∧
    (cacheRun s (((c :: cs).map fun caller => CacheLabel.arrive caller k) ++
        [CacheLabel.complete k r])).1 kother = s kother ∧
    (cacheStep (setKey s k v) (CacheLabel.arrive c2 kother)).2 =
      (cacheStep s (CacheLabel.arrive c2 kother)).2 ∧
    (cacheStep (setKey s k v) (CacheLabel.arrive c2 kother)).1 kother =
      (cacheStep s (CacheLabel.arrive c2 kother)).1 kother := by
  have hrun : cacheRun s ((c :: cs).map fun caller => CacheLabel.arrive caller k) =
      (setKey s k (KeyState.fetching (cs.reverse ++ [c])), [CacheObs.issueFetch k]) := by
    simp only [List.map_cons, cacheRun, cacheStep, hidle]
    rw [cacheRun_arrivals k cs (setKey s k (KeyState.fetching [c])) [c] (setKey_same s k _),
      setKey_setKey]
    simp
  have hcomp : cacheStep (setKey s k (KeyState.fetching (cs.reverse ++ [c])))
      (CacheLabel.complete k r) =
      (setKey s k (completeState r),
       (c :: cs).map fun caller => CacheObs.deliver caller k r) := by
    simp only [cacheStep, setKey_same, setKey_setKey]
    rcases r with aerr | am <;> simp [completeState]
  have hfull : cacheRun s (((c :: cs).map fun caller => CacheLabel.arrive caller k) ++
      [CacheLabel.complete k r]) =
      (setKey s k (completeState r),
       CacheObs.issueFetch k ::
        ((c :: cs).map fun caller => CacheObs.deliver caller k r)) := by
    rw [cacheRun_append, hrun]
    simp only [cacheRun]
    rw [hcomp]
    simp
  have hother : setKey s k v kother = s kother := setKey_other s k v kother hne
  refine ⟨?_, ?_, ?_, ?_, ?_, ?_⟩
  · rw [hfull]
  · rw [hfull]
    simp only [issueCount, List.countP_cons]
    have h0 := issueCount_deliver_map k r (c :: cs)
    simp only [issueCount] at h0
    simp [h0]
  · rw [hfull]
    exact setKey_same s k _
  · rw [hfull]
    exact setKey_other s k _ kother hne
  · cases hs : s kother <;> simp [cacheStep, hother, hs, setKey_same]
  · cases hs : s kother <;> simp [cacheStep, hother, hs, setKey_same, hne]

/-- The cache state with no fetch outstanding and nothing memoized for
any identity. -/
def idleCache : CacheState := fun j => KeyState.idle

/-- A second concrete object identity, distinct from `sampleRef`. -/
def otherRef : ObjectReference :=
  { kind := "Pod", namespc := "default", name := "y", uid := "uid-2" }

/-- Witness for C7 at a concrete input: three concurrent callers for
`sampleRef` produce exactly one fetch, all three receive the same result,
and a caller for the distinct `otherRef` is unaffected by the in-flight
fetch state of `sampleRef`. -/
theorem single_inflight_fetch_witness :
    (cacheRun idleCache [CacheLabel.arrive 1 sampleRef, CacheLabel.arrive 2 sampleRef,
        CacheLabel.arrive 3 sampleRef,
        CacheLabel.complete sampleRef (Except.ok [("l", "1")])]).2 =
      [CacheObs.issueFetch sampleRef,
       CacheObs.deliver 1 sampleRef (Except.ok [("l", "1")]),
       CacheObs.deliver 2 sampleRef (Except.ok [("l", "1")]),
       CacheObs.deliver 3 sampleRef (Except.ok [("l", "1")])] ∧
    issueCount sampleRef
      (cacheRun idleCache [CacheLabel.arrive 1 sampleRef, CacheLabel.arrive 2 sampleRef,
        CacheLabel.arrive 3 sampleRef,
        CacheLabel.complete sampleRef (Except.ok [("l", "1")])]).2 = 1 ∧
    (cacheRun idleCache [CacheLabel.arrive 1 sampleRef, CacheLabel.arrive 2 sampleRef,
        CacheLabel.arrive 3 sampleRef,
        CacheLabel.complete sampleRef (Except.ok [("l", "1")])]).1 sampleRef =
      KeyState.cached [("l", "1")] ∧
    (cacheRun idleCache [CacheLabel.arrive 1 sampleRef, CacheLabel.arrive 2 sampleRef,
        CacheLabel.arrive 3 sampleRef,
        CacheLabel.complete sampleRef (Except.ok [("l", "1")])]).1 otherRef =
      idleCache otherRef ∧
    (cacheStep (setKey idleCache sampleRef (KeyState.fetching [9]))
      (CacheLabel.arrive 7 otherRef)).2 =
      (cacheStep idleCache (CacheLabel.arrive 7 otherRef)).2 ∧
    (cacheStep (setKey idleCache sampleRef (KeyState.fetching [9]))
      (CacheLabel.arrive 7 otherRef)).1 otherRef =
      (cacheStep idleCache (CacheLabel.arrive 7 otherRef)).1 otherRef :=
  single_inflight_fetch idleCache sampleRef otherRef 1 [2, 3] (Except.ok [("l", "1")]) 7
    (KeyState.fetching [9]) rfl (by decide)
